import Mathlib

/-!
Verification of the RipMaster core (src/Ripmaster.py) against its
natural-language specification.  The Python source is shallowly embedded:
the job registry is a list of movie records, the two pickle files are an
explicit two-slot disk, and the `for … : lst.remove(x)` pattern of the
source (which skips the element after a removal, because the iterator
index is not adjusted) is modelled by an explicit structural recursion
with the same skip behaviour.
-/

/-- Modelled from the spec: the `Movie` class lives in the missing
`tools` module; per the spec a Job Descriptor is the source path data
(root, containing folder, file name) plus four stage flags, all false at
discovery time. -/
structure Movie where
  root : String
  folder : String
  fileName : String
  extracted : Bool
  converted : Bool
  encoded : Bool
  merged : Bool
deriving DecidableEq

/-- Modelled from the spec: the identity of a job is its source path. -/
def Movie.path (m : Movie) : String :=
  m.root ++ "/" ++ m.folder ++ "/" ++ m.fileName

/-- Modelled from the spec: `Movie(dir, d, f)` constructs a fresh job
descriptor with every stage flag false. -/
def mkMovie (root folder fileName : String) : Movie :=
  ⟨root, folder, fileName, false, false, false, false⟩

/-- The four pipeline stages, in the order of the four loops of `main`. -/
inductive Stage where
  | extract
  | convert
  | encode
  | merge
deriving DecidableEq

/-- The stage-completion flag of a movie that a given stage's loop tests. -/
def flagOf : Stage → Movie → Bool
  | Stage.extract, m => m.extracted
  | Stage.convert, m => m.converted
  | Stage.encode, m => m.encoded
  | Stage.merge, m => m.merged

/-- Modelled from the spec: on success the stage's external operation
(defined in the missing `tools` module) records completion by setting the
corresponding flag true. -/
def setFlag : Stage → Movie → Movie
  | Stage.extract, m => { m with extracted := true }
  | Stage.convert, m => { m with converted := true }
  | Stage.encode, m => { m with encoded := true }
  | Stage.merge, m => { m with merged := true }

/-! ## String containment, as Python `in` and the spec's extension test -/

/-- Whether `pat` occurs at the head of `l`. -/
def isPrefOf : List Char → List Char → Bool
  | [], _ => true
  | _ :: _, [] => false
  | a :: as, b :: bs => if a = b then isPrefOf as bs else false

/-- Whether `pat` occurs anywhere inside `l` (Python `pat in s`). -/
def hasSubLl (pat : List Char) : List Char → Bool
  | [] => pat.isEmpty
  | c :: rest => isPrefOf pat (c :: rest) || hasSubLl pat rest

/-- Python substring containment `pat in s`. -/
def strContains (s pat : String) : Bool :=
  hasSubLl pat.toList s.toList

/-- Whether `s` ends with `pat` (used for the spec's reading of a file
extension test). -/
def strEndsWith (s pat : String) : Bool :=
  isPrefOf pat.toList.reverse s.toList.reverse

/-! ## Job discovery (`get_movies`, Ripmaster.py lines 219-236) -/

/-- One immediate subdirectory of the intake root: its name and the
result of `os.listdir` on it. -/
structure Subdir where
  name : String
  files : List String
deriving DecidableEq

/-- The file test of Ripmaster.py line 232:
`'--converted' not in f and '.mkv' in f`. -/
def candidateFile (f : String) : Bool :=
  !(strContains f "--converted") && strContains f ".mkv"

/-- Follows the spec's words (§4.1): a candidate has the media container
EXTENSION `.mkv` and does not carry the stage-4 output marker. -/
def specCandidateFile (f : String) : Bool :=
  !(strContains f "--converted") && strEndsWith f ".mkv"

/-- The inner file loop of `get_movies`: one candidate movie per
qualifying file of the subdirectory. -/
def moviesOf (root : String) (d : Subdir) : List Movie :=
  d.files.filterMap fun f =>
    if candidateFile f then some (mkMovie root d.name f) else none

/-- The directory loop of `get_movies` (lines 224-234).  The source
iterates `directories` while calling `directories.remove(d)` on entries
without the `__` token; removing the current entry shifts the rest of
the list one position left under the iterator's fixed index, so the
entry right after a removed one is never examined.  That skip semantics
is mirrored here exactly. -/
def gmLoop (root : String) : List Subdir → List Movie
  | [] => []
  | [d] => if strContains d.name "__" then moviesOf root d else []
  | d :: d2 :: rest =>
    if strContains d.name "__" then moviesOf root d ++ gmLoop root (d2 :: rest)
    else gmLoop root rest

/-- `get_movies(dir)` of Ripmaster.py, over the listed subdirectories of
the root. -/
def get_movies (root : String) (dirs : List Subdir) : List Movie :=
  gmLoop root dirs

/-- Follows the spec's words (§4.1): every subdirectory carrying the
instruction-separator token is considered, via a stable filtered copy of
the listing. -/
def specGet_movies (root : String) (dirs : List Subdir) : List Movie :=
  (dirs.filter fun d => strContains d.name "__").flatMap (moviesOf root)

/-! ## Registry merge (Ripmaster.py lines 276-287) -/

/-- Model of the source pattern
`for raw in newMovies: if p raw: newMovies.remove(raw)`.
Python's list iterator keeps a bare index, so removing the current
element shifts the following element under the cursor and that follower
is skipped (it stays in the list unexamined). -/
def pyLoopRemove (p : Movie → Bool) : List Movie → List Movie
  | [] => []
  | [x] => if p x then [] else [x]
  | x :: y :: rest =>
    if p x then y :: pyLoopRemove p rest
    else x :: pyLoopRemove p (y :: rest)

/-- The nested dedup loops of `main` (lines 276-281): for each recovered
movie, remove from `newMovies` the freshly discovered entries sharing its
path. -/
def dedupAgainst : List Movie → List Movie → List Movie
  | [], newMovies => newMovies
  | m :: restM, newMovies =>
    dedupAgainst restM (pyLoopRemove (fun raw => raw.path == m.path) newMovies)

/-- Lines 276-287 of `main`: after dedup, `movies.extend(newMovies)`. -/
def mergeMovies (movies newMovies : List Movie) : List Movie :=
  movies ++ dedupAgainst movies newMovies

/-- A discovered candidate survives the dedup pass exactly when no
recovered movie shares its path. -/
def keepNew (movies : List Movie) (x : Movie) : Bool :=
  !(movies.any fun m => x.path == m.path)

/-! ## Checkpoint store (movies.p and movies.p.bak) -/

/-- Durable content of one pickle file: absent, truncated by a crash
mid-write (empty or cut short), corrupt in a way that is not a bare
truncation, or a fully written registry. -/
inductive FileState where
  | absent
  | truncated
  | corruptData
  | good (r : List Movie)
deriving DecidableEq

/-- The two durable locations of the store. -/
structure Disk where
  primary : FileState
  backup : FileState
deriving DecidableEq

/-- Outcome of Python `pickle.load` on a file in a given state: a missing
file raises IOError, a truncated or empty stream raises EOFError, and
otherwise-corrupt data raises an unpickling error that is neither. -/
inductive LoadResult where
  | ok (r : List Movie)
  | ioError
  | eofError
  | pickleError
deriving DecidableEq

/-- Deserialization behaviour of each file state. -/
def pickleLoad : FileState → LoadResult
  | FileState.absent => LoadResult.ioError
  | FileState.truncated => LoadResult.eofError
  | FileState.corruptData => LoadResult.pickleError
  | FileState.good r => LoadResult.ok r

/-- Lines 261-266 of `main`: load the primary, catching exactly
`(IOError, EOFError)` and starting from scratch on those; any other
exception propagates and aborts the run (`Except.error`). -/
def readRegistry (fs : FileState) : Except Unit (List Movie) :=
  match pickleLoad fs with
  | LoadResult.ok r => Except.ok r
  | LoadResult.ioError => Except.ok []
  | LoadResult.eofError => Except.ok []
  | LoadResult.pickleError => Except.error ()

/-- Lines 253-256 of `main`: `copyfile` backup over primary
unconditionally, passing on the IOError raised when the backup is
absent.  `copyfile` copies whatever bytes the backup holds. -/
def recoverDisk (d : Disk) : Disk :=
  match d.backup with
  | FileState.absent => d
  | b => { d with primary := b }

/-- The full startup recovery: restore from backup, then read the
primary. -/
def recoverRead (d : Disk) : Except Unit (List Movie) :=
  readRegistry (recoverDisk d).primary

/-- Where a crash interrupts the checkpoint write sequence
`dump(primary); copyfile(primary, backup)`: opening a file for writing
truncates it, so a crash mid-step leaves that file truncated. -/
inductive CrashPoint where
  | beforeWrite
  | duringPrimary
  | afterPrimary
  | duringBackup
  | afterBackup
deriving DecidableEq

/-- Disk contents left behind when the process is terminated at the
given point of a checkpoint write of `r` over prior disk `d`. -/
def crashDuringWrite (r : List Movie) (d : Disk) : CrashPoint → Disk
  | CrashPoint.beforeWrite => d
  | CrashPoint.duringPrimary => { d with primary := FileState.truncated }
  | CrashPoint.afterPrimary => { d with primary := FileState.good r }
  | CrashPoint.duringBackup => ⟨FileState.good r, FileState.truncated⟩
  | CrashPoint.afterBackup => ⟨FileState.good r, FileState.good r⟩

/-- Follows the spec's words: the last registry whose checkpoint write
(primary dump and backup copy) fully completed, when the previous
completed checkpoint held `r1` and the interrupted write was of `r2`. -/
def lastCompleted (r1 r2 : List Movie) : CrashPoint → List Movie
  | CrashPoint.afterBackup => r2
  | _ => r1

/-- One step of the write sequence: `open('movies.p','wb')` plus
`pickle.dump`; a failure raises an IOError that nothing in `main`
catches. -/
def dumpPrimary (r : List Movie) (d : Disk) (fails : Bool) : Except Unit Disk :=
  if fails then Except.error () else Except.ok { d with primary := FileState.good r }

/-- The second step: `copyfile('movies.p', 'movies.p.bak')`; a failure
raises an IOError that nothing at the call sites (lines 296, 303, 309,
315) catches. -/
def copyToBackup (d : Disk) (fails : Bool) : Except Unit Disk :=
  if fails then Except.error () else Except.ok { d with backup := d.primary }

/-- The whole checkpoint write with failure injection for each step;
exceptions propagate. -/
def checkpointWriteE (r : List Movie) (d : Disk) (pFail bFail : Bool) :
    Except Unit Disk :=
  (dumpPrimary r d pFail).bind fun d1 => copyToBackup d1 bFail

/-! ## Stage runner (Ripmaster.py lines 298-319) -/

/-- Record of one invocation of a stage's external operation on a job. -/
structure Event where
  stage : Stage
  jobPath : String
deriving DecidableEq

/-- Result of one stage pass: the registry, the disk, and the
invocations made, in order. -/
structure StepOut where
  movies : List Movie
  disk : Disk
  events : List Event
deriving DecidableEq

/-- Record an invocation in front of the rest of a pass's output. -/
def prependEvent (e : Event) (o : StepOut) : StepOut :=
  ⟨o.movies, o.disk, e :: o.events⟩

/-- One of the first three loops of lines 298-315, over the portion of
the registry not yet iterated.  `done` is the already-iterated portion
(the list `movies` is mutated in place, so the dump inside the loop
serializes the whole partially-updated registry).  For a job whose flag
is false the external operation is invoked (recorded as an event; its
success is the oracle `succ`, modelled from the spec since the `tools`
module is missing), the whole registry is dumped to the primary, and —
unconditionally, on every iteration — the primary is copied to the
backup. -/
def stagePassAux (s : Stage) (succ : Movie → Bool) (done : List Movie) :
    List Movie → Disk → StepOut
  | [], d => ⟨done, d, []⟩
  | m :: rest, d =>
    if flagOf s m then
      stagePassAux s succ (done ++ [m]) rest ⟨d.primary, d.primary⟩
    else
      prependEvent ⟨s, m.path⟩
        (stagePassAux s succ (done ++ [if succ m then setFlag s m else m]) rest
          ⟨FileState.good (done ++ (if succ m then setFlag s m else m) :: rest),
           FileState.good (done ++ (if succ m then setFlag s m else m) :: rest)⟩)

/-- The effect of one loop iteration on one job's record. -/
def stepMovie (s : Stage) (succ : Movie → Bool) (m : Movie) : Movie :=
  if flagOf s m then m else if succ m then setFlag s m else m

/-- The fourth loop (lines 316-319): the flag is tested but the body is
`pass` — nothing is invoked, mutated, or persisted. -/
def mergePass (done : List Movie) : List Movie → List Movie
  | [] => done
  | m :: rest =>
    if m.merged = false then mergePass (done ++ [m]) rest
    else mergePass (done ++ [m]) rest

/-- The extract pass as run by `main`, from the start of the registry. -/
def passOne (succ : Stage → Movie → Bool) (ms : List Movie) (d : Disk) : StepOut :=
  stagePassAux Stage.extract (succ Stage.extract) [] ms d

/-- The convert pass, on the state the extract pass left behind. -/
def passTwo (succ : Stage → Movie → Bool) (ms : List Movie) (d : Disk) : StepOut :=
  stagePassAux Stage.convert (succ Stage.convert) []
    (passOne succ ms d).movies (passOne succ ms d).disk

/-- The encode pass, on the state the convert pass left behind. -/
def passThree (succ : Stage → Movie → Bool) (ms : List Movie) (d : Disk) : StepOut :=
  stagePassAux Stage.encode (succ Stage.encode) []
    (passTwo succ ms d).movies (passTwo succ ms d).disk

/-- Lines 298-319 of `main`: the four loops in program order.  The merge
loop contributes no events and no disk writes because its body is
`pass`. -/
def runStages (succ : Stage → Movie → Bool) (ms : List Movie) (d : Disk) : StepOut :=
  ⟨mergePass [] (passThree succ ms d).movies,
   (passThree succ ms d).disk,
   (passOne succ ms d).events ++ ((passTwo succ ms d).events ++ (passThree succ ms d).events)⟩

/-- The invocations a stage pass makes: one per job whose flag is false,
in registry order. -/
def evOf (s : Stage) (ms : List Movie) : List Event :=
  (ms.filter fun m => !(flagOf s m)).map fun m => ⟨s, m.path⟩

/-- Lines 321-325 of `main`: the end-of-run "completed" report prints
the path of every movie in the registry. -/
def completedReport (ms : List Movie) : List String :=
  ms.map Movie.path

/-- Follows the spec's words: the fully-completed jobs are those with
all four stage flags true. -/
def specCompletedReport (ms : List Movie) : List String :=
  (ms.filter fun m => m.extracted && m.converted && m.encoded && m.merged).map Movie.path

/-! ## Concrete sample data for witnesses and counterexamples -/

/-- A freshly discovered job, no stage done. -/
def mv0 : Movie := mkMovie "toConvert" "Akira__1080_hq" "Akira.mkv"

/-- A second fresh job from another folder. -/
def mv1 : Movie := mkMovie "toConvert" "Tron__720_bq" "Tron.mkv"

/-- A recovered in-progress job sharing `mv0`'s identity, with its first
stage already done. -/
def mv0x : Movie := { mv0 with extracted := true }

/-- An empty disk: neither checkpoint file exists yet. -/
def disk0 : Disk := ⟨FileState.absent, FileState.absent⟩

/-- A success oracle under which every stage operation succeeds. -/
def succAll : Stage → Movie → Bool := fun _ _ => true

/-- A subdirectory without the instruction-separator token. -/
def plainDir : Subdir := ⟨"NoInstructions", ["Other.mkv"]⟩

/-- A qualifying subdirectory holding one qualifying file. -/
def akiraDir : Subdir := ⟨"Akira__1080_hq", ["Akira.mkv"]⟩

/-! ## Helper lemmas -/

theorem pyLoopRemove_of_all_false (p : Movie → Bool) (l : List Movie)
    (h : ∀ x ∈ l, p x = false) : pyLoopRemove p l = l := by
  induction l using pyLoopRemove.induct p <;> simp_all [pyLoopRemove]

theorem pyLoopRemove_eq_filter (p : Movie → Bool) (l : List Movie)
    (h : l.countP p ≤ 1) : pyLoopRemove p l = l.filter (fun x => !(p x)) := by
  induction l using pyLoopRemove.induct p with
  | case1 => rfl
  | case2 x hx => simp [pyLoopRemove, hx]
  | case3 x hx => simp [pyLoopRemove, hx]
  | case4 x y rest hx ih =>
    have hzero : ∀ z ∈ y :: rest, p z = false := by
      intro z hz
      by_contra hzt
      have hzt' : p z = true := by
        cases hpz : p z
        · exact absurd hpz hzt
        · rfl
      have : 2 ≤ (x :: y :: rest).countP p := by
        rw [List.countP_cons_of_pos p _ hx]
        have : 1 ≤ (y :: rest).countP p := by
          rw [List.countP_eq_length_filter]
          have : z ∈ (y :: rest).filter p := List.mem_filter.mpr ⟨hz, hzt'⟩
          exact List.length_pos.mpr (List.ne_nil_of_mem this)
        omega
      omega
    simp only [pyLoopRemove, hx, if_pos]
    rw [pyLoopRemove_of_all_false p rest
      (fun z hz => hzero z (List.mem_cons_of_mem y hz))]
    simp [List.filter_cons, hx, hzero y (by simp)]
    exact (List.filter_eq_self.mpr fun a ha => by
      simp [hzero a (List.mem_cons_of_mem y ha)]).symm
  | case5 x y rest hx ih =>
    have : (y :: rest).countP p ≤ 1 := by
      rw [List.countP_cons_of_neg p _ hx] at h
      exact h
    simp [pyLoopRemove, hx, ih this, List.filter_cons]

theorem countP_path_le_one (D : List Movie) (q : String)
    (hD : (D.map Movie.path).Nodup) :
    D.countP (fun raw => raw.path == q) ≤ 1 := by
  induction D with
  | nil => simp
  | cons d D' ih =>
    simp only [List.map_cons, List.nodup_cons] at hD
    by_cases hd : d.path = q
    · rw [List.countP_cons_of_pos _ _ (by simp [hd])]
      have : D'.countP (fun raw => raw.path == q) = 0 := by
        apply List.countP_eq_zero.mpr
        intro a ha
        simp only [beq_iff_eq]
        intro haq
        exact hD.1 (List.mem_map.mpr ⟨a, ha, by rw [haq, hd]⟩)
      omega
    · rw [List.countP_cons_of_neg _ _ (by simp [hd])]
      exact ih hD.2

theorem dedupAgainst_eq_filter (R D : List Movie)
    (hD : (D.map Movie.path).Nodup) :
    dedupAgainst R D = D.filter (keepNew R) := by
  induction R generalizing D with
  | nil =>
    rw [dedupAgainst]
    exact (List.filter_eq_self.mpr fun a _ => by simp [keepNew]).symm
  | cons m R' ih =>
    rw [dedupAgainst,
      pyLoopRemove_eq_filter _ _ (countP_path_le_one D m.path hD)]
    have hD2 : ((D.filter fun x => !(x.path == m.path)).map Movie.path).Nodup :=
      hD.sublist (List.Sublist.map Movie.path (List.filter_sublist D))
    rw [ih _ hD2, List.filter_filter]
    apply List.filter_congr
    intro x _
    simp [keepNew, List.any_cons, Bool.and_comm]

theorem keepNew_iff (R : List Movie) (x : Movie) :
    keepNew R x = true ↔ x.path ∉ R.map Movie.path := by
  rw [keepNew, Bool.not_eq_true', List.any_eq_false]
  constructor
  · intro h hMem
    obtain ⟨m, hm, hpath⟩ := List.mem_map.mp hMem
    have hfalse := h m hm
    rw [beq_iff_eq] at hfalse
    exact hfalse hpath.symm
  · intro h m hm
    rw [beq_iff_eq]
    intro hx
    exact h (List.mem_map.mpr ⟨m, hm, hx.symm⟩)

theorem stagePassAux_movies (s : Stage) (succ : Movie → Bool)
    (l : List Movie) : ∀ (done : List Movie) (d : Disk),
    (stagePassAux s succ done l d).movies = done ++ l.map (stepMovie s succ) := by
  induction l with
  | nil => intro done d; simp [stagePassAux]
  | cons m rest ih =>
    intro done d
    by_cases hf : flagOf s m
    · simp [stagePassAux, hf, stepMovie, ih]
    · simp only [stagePassAux, hf, if_neg, Bool.false_eq_true, not_false_iff,
        if_false, prependEvent, ih]
      simp [stepMovie, hf]

theorem stagePassAux_events (s : Stage) (succ : Movie → Bool)
    (l : List Movie) : ∀ (done : List Movie) (d : Disk),
    (stagePassAux s succ done l d).events = evOf s l := by
  induction l with
  | nil => intro done d; simp [stagePassAux, evOf]
  | cons m rest ih =>
    intro done d
    by_cases hf : flagOf s m
    · simp only [stagePassAux, hf, if_true, ih, evOf, List.filter_cons,
        Bool.not_true, Bool.false_eq_true, if_false]
    · simp only [stagePassAux, hf, Bool.false_eq_true, if_false, prependEvent,
        ih, evOf, List.filter_cons, Bool.not_false, if_true, List.map_cons]

theorem mergePass_eq (l : List Movie) : ∀ done : List Movie,
    mergePass done l = done ++ l := by
  induction l with
  | nil => intro done; simp [mergePass]
  | cons m rest ih =>
    intro done
    by_cases hm : m.merged = false <;> simp [mergePass, hm, ih]

theorem stepMovie_merged (s : Stage) (hs : s ≠ Stage.merge)
    (succ : Movie → Bool) (m : Movie) :
    (stepMovie s succ m).merged = m.merged := by
  rw [stepMovie]
  by_cases hf : flagOf s m
  · simp [hf]
  · simp only [hf, Bool.false_eq_true, if_false]
    by_cases hsu : succ m = true
    · simp only [hsu, if_true]
      cases s with
      | extract => rfl
      | convert => rfl
      | encode => rfl
      | merge => exact absurd rfl hs
    · simp [hsu]

theorem runStages_events (succ : Stage → Movie → Bool) (ms : List Movie) (d : Disk) :
    (runStages succ ms d).events =
      evOf Stage.extract ms ++
        (evOf Stage.convert (passOne succ ms d).movies ++
          evOf Stage.encode (passTwo succ ms d).movies) := by
  show (passOne succ ms d).events ++ _ = _
  rw [show (passOne succ ms d).events = evOf Stage.extract ms from
      stagePassAux_events _ _ _ _ _,
    show (passTwo succ ms d).events = evOf Stage.convert (passOne succ ms d).movies from
      stagePassAux_events _ _ _ _ _,
    show (passThree succ ms d).events = evOf Stage.encode (passTwo succ ms d).movies from
      stagePassAux_events _ _ _ _ _]

theorem runStages_movies_eq (succ : Stage → Movie → Bool) (ms : List Movie) (d : Disk) :
    (runStages succ ms d).movies =
      ((ms.map (stepMovie Stage.extract (succ Stage.extract))).map
          (stepMovie Stage.convert (succ Stage.convert))).map
        (stepMovie Stage.encode (succ Stage.encode)) := by
  show mergePass [] (passThree succ ms d).movies = _
  rw [mergePass_eq, List.nil_append, passThree, stagePassAux_movies, List.nil_append,
    passTwo, stagePassAux_movies, List.nil_append,
    passOne, stagePassAux_movies, List.nil_append]

theorem evOf_all_stage (s : Stage) (l : List Movie) :
    ((evOf s l).all fun e => e.stage == s) = true := by
  simp only [evOf, List.all_eq_true, List.mem_map, List.mem_filter]
  rintro e ⟨m, _, rfl⟩
  simp

theorem evOf_no_merge (s : Stage) (hs : s ≠ Stage.merge) (l : List Movie) :
    ((evOf s l).all fun e => !(e.stage == Stage.merge)) = true := by
  simp only [evOf, List.all_eq_true, List.mem_map]
  rintro e ⟨m, hm, rfl⟩
  simpa using hs

theorem runStages_no_merge_event (succ : Stage → Movie → Bool)
    (ms : List Movie) (d : Disk) :
    ((runStages succ ms d).events.all fun e => !(e.stage == Stage.merge)) = true := by
  rw [runStages_events]
  simp only [List.all_append, Bool.and_eq_true]
  exact ⟨evOf_no_merge _ (by simp) _, evOf_no_merge _ (by simp) _,
    evOf_no_merge _ (by simp) _⟩

/-! ## Claims -/

/-- C1 counterexample: the claim as stated is false.  With a prior
fully-completed checkpoint of the one-job registry `[mv0x]` in both
files, terminating a checkpoint write of `[]` during the backup copy
leaves a truncated backup; the next startup copies that truncated backup
over the intact primary unconditionally, and recovery then yields the
empty registry instead of the last fully-completed registry `[mv0x]`. -/
theorem C1_counterexample :
    recoverRead (crashDuringWrite []
        ⟨FileState.good [mv0x], FileState.good [mv0x]⟩ CrashPoint.duringBackup) =
      Except.ok []
    ∧ lastCompleted [mv0x] [] CrashPoint.duringBackup = [mv0x]
    ∧ ([] : List Movie) ≠ [mv0x] :=
  ⟨rfl, rfl, by decide⟩

/-- C1 amended: provided a prior successful backup copy exists and the
termination does not occur during the backup-copy step itself, the
registry recovered at the next startup equals the last registry for
which a checkpoint write fully completed — never a partially-written or
empty one. -/
theorem C1_amended (r1 r2 : List Movie) (cp : CrashPoint)
    (hcp : cp ≠ CrashPoint.duringBackup) :
    recoverRead (crashDuringWrite r2 ⟨FileState.good r1, FileState.good r1⟩ cp) =
      Except.ok (lastCompleted r1 r2 cp) := by
  cases cp with
  | beforeWrite => rfl
  | duringPrimary => rfl
  | afterPrimary => rfl
  | duringBackup => exact absurd rfl hcp
  | afterBackup => rfl

/-- C1 witness: the amended theorem applied to a crash that interrupted
the write right after the primary dump completed; recovery returns the
prior checkpoint. -/
theorem C1_witness :
    recoverRead (crashDuringWrite []
        ⟨FileState.good [mv0x], FileState.good [mv0x]⟩ CrashPoint.afterPrimary) =
      Except.ok (lastCompleted [mv0x] [] CrashPoint.afterPrimary) :=
  C1_amended [mv0x] [] CrashPoint.afterPrimary (by decide)

/-- C2: for a recovered registry `R` and a discovered candidate list `D`,
each with pairwise-distinct identities, the merge of lines 276-287 keeps
exactly one entry per identity of `R` joined with `D`: it equals `R`
followed by the candidates whose identity is not in `R`, its identities
are pairwise distinct and are exactly those of `R` and `D`, every entry
of `R` survives verbatim (stage flags untouched), and every candidate
with a fresh identity is inserted.  Discovered duplicates of a recovered
identity are discarded. -/
theorem C2_merge_dedup (R D : List Movie)
    (hR : (R.map Movie.path).Nodup) (hD : (D.map Movie.path).Nodup) :
    mergeMovies R D = R ++ D.filter (keepNew R)
    ∧ ((mergeMovies R D).map Movie.path).Nodup
    ∧ (∀ q : String, q ∈ (mergeMovies R D).map Movie.path ↔
        q ∈ R.map Movie.path ∨ q ∈ D.map Movie.path)
    ∧ (∀ m, m ∈ R → m ∈ mergeMovies R D)
    ∧ (∀ c, c ∈ D → c.path ∉ R.map Movie.path → c ∈ mergeMovies R D) := by
  have h1 : mergeMovies R D = R ++ D.filter (keepNew R) := by
    rw [mergeMovies, dedupAgainst_eq_filter R D hD]
  have hsubn : ((D.filter (keepNew R)).map Movie.path).Nodup :=
    hD.sublist (List.Sublist.map Movie.path (List.filter_sublist D))
  have hdisj : ∀ q, q ∈ R.map Movie.path →
      q ∉ (D.filter (keepNew R)).map Movie.path := by
    intro q hqR hqF
    obtain ⟨c, hcF, hcq⟩ := List.mem_map.mp hqF
    obtain ⟨hcD, hkeep⟩ := List.mem_filter.mp hcF
    exact (keepNew_iff R c).mp hkeep (hcq ▸ hqR)
  refine ⟨h1, ?_, ?_, ?_, ?_⟩
  · rw [h1, List.map_append, List.nodup_append]
    exact ⟨hR, hsubn, hdisj⟩
  · intro q
    rw [h1, List.map_append, List.mem_append]
    constructor
    · rintro (hq | hq)
      · exact Or.inl hq
      · obtain ⟨c, hcF, hcq⟩ := List.mem_map.mp hq
        exact Or.inr (List.mem_map.mpr ⟨c, (List.mem_filter.mp hcF).1, hcq⟩)
    · rintro (hq | hq)
      · exact Or.inl hq
      · by_cases hqR : q ∈ R.map Movie.path
        · exact Or.inl hqR
        · obtain ⟨c, hcD, hcq⟩ := List.mem_map.mp hq
          refine Or.inr (List.mem_map.mpr ⟨c, List.mem_filter.mpr ⟨hcD, ?_⟩, hcq⟩)
          exact (keepNew_iff R c).mpr (by rw [hcq]; exact hqR)
  · intro m hm
    rw [h1]
    exact List.mem_append_left _ hm
  · intro c hcD hcR
    rw [h1]
    exact List.mem_append_right _
      (List.mem_filter.mpr ⟨hcD, (keepNew_iff R c).mpr hcR⟩)

/-- C2 witness: the merge of a recovered in-progress job with a
discovery that re-found the same identity plus one new job keeps the
in-progress record and inserts only the new job. -/
theorem C2_merge_dedup_witness :
    mergeMovies [mv0x] [mv0, mv1] = [mv0x] ++ [mv0, mv1].filter (keepNew [mv0x]) :=
  (C2_merge_dedup [mv0x] [mv0, mv1] (by decide) (by decide)).1

/-- C3: the claim is right and the code is wrong.  With the listing
`[plainDir, akiraDir]`, the in-place `directories.remove` of
`get_movies` makes the iterator skip `akiraDir` entirely after removing
`plainDir`, so discovery yields nothing, although `akiraDir` carries the
token and holds a qualifying file; the spec's contract (a stable
filtered copy) yields its one candidate. -/
theorem C3_discovery_skip :
    get_movies "toConvert" [plainDir, akiraDir] = []
    ∧ specGet_movies "toConvert" [plainDir, akiraDir] =
        [mkMovie "toConvert" "Akira__1080_hq" "Akira.mkv"]
    ∧ strContains akiraDir.name "__" = true
    ∧ candidateFile "Akira.mkv" = true :=
  ⟨by decide, by decide, by decide, by decide⟩

/-- C4: in each of the stage loops of lines 298-315, a job whose flag is
false and whose stage operation succeeds continues the pass with its
flag set true and with the whole updated registry already written to the
primary checkpoint and copied to the backup — persistence happens before
the loop reaches the next job, never batched. -/
theorem C4_persist_each_job (s : Stage) (succ : Movie → Bool)
    (done rest : List Movie) (m : Movie) (d : Disk)
    (hflag : flagOf s m = false) (hsucc : succ m = true) :
    stagePassAux s succ done (m :: rest) d =
      prependEvent ⟨s, m.path⟩
        (stagePassAux s succ (done ++ [setFlag s m]) rest
          ⟨FileState.good (done ++ setFlag s m :: rest),
           FileState.good (done ++ setFlag s m :: rest)⟩)
    ∧ flagOf s (setFlag s m) = true := by
  constructor
  · simp [stagePassAux, hflag, hsucc]
  · cases s <;> simp [setFlag, flagOf]

/-- C4 witness: the extract pass on a fresh one-job registry persists
the updated registry before moving on. -/
theorem C4_persist_each_job_witness :
    stagePassAux Stage.extract (fun _ => true) [] [mv0] disk0 =
      prependEvent ⟨Stage.extract, mv0.path⟩
        (stagePassAux Stage.extract (fun _ => true) ([] ++ [setFlag Stage.extract mv0]) []
          ⟨FileState.good ([] ++ setFlag Stage.extract mv0 :: []),
           FileState.good ([] ++ setFlag Stage.extract mv0 :: [])⟩)
    ∧ flagOf Stage.extract (setFlag Stage.extract mv0) = true :=
  C4_persist_each_job Stage.extract (fun _ => true) [] [] mv0 disk0 (by decide) rfl

/-- C5 counterexample: the claim as stated is false.  A primary whose
contents fail to deserialize with an unpickling error (not a bare
truncation) is not turned into an empty registry: the exception is
outside the `(IOError, EOFError)` handler of lines 261-266 and aborts
the run. -/
theorem C5_corrupt_fatal_counterexample :
    readRegistry FileState.corruptData = Except.error ()
    ∧ Except.error () ≠ Except.ok ([] : List Movie) :=
  ⟨rfl, by intro h; injection h⟩

/-- C5 amended: reading the store returns the empty registry and the run
continues when the primary is absent (IOError) or empty/truncated
(EOFError); any other deserialization failure propagates and aborts the
run, while an intact primary is returned as-is. -/
theorem C5_read_amended :
    readRegistry FileState.absent = Except.ok []
    ∧ readRegistry FileState.truncated = Except.ok []
    ∧ readRegistry FileState.corruptData = Except.error ()
    ∧ ∀ r : List Movie, readRegistry (FileState.good r) = Except.ok r :=
  ⟨rfl, rfl, rfl, fun _ => rfl⟩

/-- C6 counterexample: the claim as stated is false.  With the primary
dump succeeding and the subsequent primary-to-backup copy failing, the
run does not continue with a warning: the copy's IOError is uncaught at
lines 296, 303, 309, 315 and aborts the checkpoint attempt. -/
theorem C6_backup_fail_counterexample :
    checkpointWriteE [] disk0 false true = Except.error ()
    ∧ dumpPrimary [] disk0 false = Except.ok ⟨FileState.good [], FileState.absent⟩ :=
  ⟨rfl, rfl⟩

/-- C6 amended: a failure to write the primary record is fatal for the
checkpoint attempt and surfaced to the caller, and so is a failure of
the subsequent primary-to-backup copy; only a fully successful sequence
returns, leaving both records holding the new registry. -/
theorem C6_write_amended (r : List Movie) (d : Disk) (b : Bool) :
    checkpointWriteE r d true b = Except.error ()
    ∧ checkpointWriteE r d false true = Except.error ()
    ∧ checkpointWriteE r d false false =
        Except.ok ⟨FileState.good r, FileState.good r⟩ :=
  ⟨rfl, rfl, rfl⟩

/-- C7 counterexample: the claim as stated is false for the merge stage.
Running the four loops over a fresh one-job registry with every
operation succeeding invokes extract, convert and encode for the job,
but although the job ends the run with its merged flag still false, no
merge-stage operation is ever invoked. -/
theorem C7_merge_not_invoked_counterexample :
    (runStages succAll [mv0] disk0).events =
      [⟨Stage.extract, mv0.path⟩, ⟨Stage.convert, mv0.path⟩, ⟨Stage.encode, mv0.path⟩]
    ∧ (∃ m, m ∈ (runStages succAll [mv0] disk0).movies ∧ m.merged = false) :=
  ⟨rfl, by decide⟩

/-- C7 amended: the runner advances the registry in strict global stage
order — the trace is the extract-pass invocations on the whole starting
registry, then the convert-pass invocations on the registry the extract
pass produced, then the encode-pass invocations on the registry the
convert pass produced; within each of these passes an operation is
invoked exactly for the jobs whose flag is false, each event carries its
own pass's stage, and the merge pass invokes no operation at all. -/
theorem C7_stage_order_amended (succ : Stage → Movie → Bool)
    (ms : List Movie) (d : Disk) :
    (runStages succ ms d).events =
      evOf Stage.extract ms ++
        (evOf Stage.convert (passOne succ ms d).movies ++
          evOf Stage.encode (passTwo succ ms d).movies)
    ∧ ((evOf Stage.extract ms).all fun e => e.stage == Stage.extract) = true
    ∧ ((evOf Stage.convert (passOne succ ms d).movies).all
        fun e => e.stage == Stage.convert) = true
    ∧ ((evOf Stage.encode (passTwo succ ms d).movies).all
        fun e => e.stage == Stage.encode) = true
    ∧ ((runStages succ ms d).events.all fun e => !(e.stage == Stage.merge)) = true :=
  ⟨runStages_events succ ms d, evOf_all_stage _ _, evOf_all_stage _ _,
   evOf_all_stage _ _, runStages_no_merge_event succ ms d⟩

/-- C8 counterexample: the claim as stated is false.  The file
`Akira.mkv.bak` does not have the `.mkv` extension, yet line 232's
substring test makes it a candidate input. -/
theorem C8_substring_counterexample :
    candidateFile "Akira.mkv.bak" = true
    ∧ specCandidateFile "Akira.mkv.bak" = false
    ∧ strEndsWith "Akira.mkv.bak" ".mkv" = false :=
  ⟨by decide, by decide, by decide⟩

/-- C8 amended: within a qualifying subdirectory, a file becomes a
candidate input if and only if its name contains the substring `.mkv`
anywhere (not necessarily as the extension) and does not contain the
stage-4 output marker `--converted`. -/
theorem C8_candidate_amended (root : String) (d : Subdir) (f : String) :
    mkMovie root d.name f ∈ moviesOf root d ↔
      f ∈ d.files ∧ strContains f "--converted" = false
        ∧ strContains f ".mkv" = true := by
  rw [moviesOf, List.mem_filterMap]
  constructor
  · rintro ⟨g, hg, hguard⟩
    by_cases hc : candidateFile g
    · rw [if_pos hc] at hguard
      have hgf : g = f := by
        have := Option.some.inj hguard
        exact congrArg Movie.fileName this
      subst hgf
      rw [candidateFile, Bool.and_eq_true, Bool.not_eq_true'] at hc
      exact ⟨hg, hc.1, hc.2⟩
    · rw [if_neg hc] at hguard
      exact absurd hguard (by simp)
  · rintro ⟨hf, hnc, hmkv⟩
    refine ⟨f, hf, ?_⟩
    rw [if_pos]
    rw [candidateFile, Bool.and_eq_true, Bool.not_eq_true']
    exact ⟨hnc, hmkv⟩

/-- C8 witness: the amended criterion instantiated at the qualifying
file of the sample directory. -/
theorem C8_candidate_amended_witness :
    mkMovie "toConvert" akiraDir.name "Akira.mkv" ∈ moviesOf "toConvert" akiraDir ↔
      "Akira.mkv" ∈ akiraDir.files ∧ strContains "Akira.mkv" "--converted" = false
        ∧ strContains "Akira.mkv" ".mkv" = true :=
  C8_candidate_amended "toConvert" akiraDir "Akira.mkv"

/-- C9: the claim is right and the code is wrong.  The end-of-run
"completed" report of lines 321-325 prints every movie in the registry:
for a registry holding one job with no stage done at all, the code's
report still lists it, while the report the claim describes (all four
flags true) is empty. -/
theorem C9_report_unfiltered :
    completedReport [mv0] = [mv0.path]
    ∧ specCompletedReport [mv0] = []
    ∧ mv0.extracted = false ∧ mv0.merged = false :=
  ⟨rfl, rfl, rfl, rfl⟩

/-- C10: the merge pass changes nothing.  It maps the registry to
itself, the run's final registry and disk are exactly those the encode
pass left behind (no checkpoint write or backup copy happens during or
after the merge pass), no merge-stage operation is ever invoked, and
when every job enters the run with `merged` false, every job ends the
run with `merged` still false. -/
theorem C10_merge_pass_noop (succ : Stage → Movie → Bool)
    (ms : List Movie) (d : Disk) :
    mergePass [] (passThree succ ms d).movies = (passThree succ ms d).movies
    ∧ (runStages succ ms d).movies = (passThree succ ms d).movies
    ∧ (runStages succ ms d).disk = (passThree succ ms d).disk
    ∧ ((runStages succ ms d).events.all fun e => !(e.stage == Stage.merge)) = true
    ∧ ((∀ m ∈ ms, m.merged = false) →
        ∀ m ∈ (runStages succ ms d).movies, m.merged = false) := by
  refine ⟨?_, ?_, rfl, runStages_no_merge_event succ ms d, ?_⟩
  · rw [mergePass_eq, List.nil_append]
  · show mergePass [] (passThree succ ms d).movies = _
    rw [mergePass_eq, List.nil_append]
  · intro h m hm
    rw [runStages_movies_eq] at hm
    obtain ⟨m2, hm2, rfl⟩ := List.mem_map.mp hm
    obtain ⟨m1, hm1, rfl⟩ := List.mem_map.mp hm2
    obtain ⟨m0, hm0, rfl⟩ := List.mem_map.mp hm1
    rw [stepMovie_merged _ (by simp) _ _, stepMovie_merged _ (by simp) _ _,
      stepMovie_merged _ (by simp) _ _]
    exact h m0 hm0

/-- C10 witness: a full run over a fresh one-job registry ends with the
merged flag still false. -/
theorem C10_merge_pass_noop_witness :
    ((runStages succAll [mv0] disk0).movies.all fun m => !m.merged) = true :=
  List.all_eq_true.mpr fun m hm => by
    rw [(C10_merge_pass_noop succAll [mv0] disk0).2.2.2.2 (by decide) m hm]
    rfl
